import Mathlib

/-!
Verification of the client-side financial aggregation and state-synchronization
layer of a personal-finance web application.

The TypeScript source is shallowly embedded: JS numbers used for monetary
amounts are modelled as exact rationals (ℚ), JS `Date` values as a calendar
record ordered by their timestamp key, JS strings as Lean strings (or as
lists of characters where the code manipulates them character by character),
and remote writes as boolean success parameters threaded through the state
transition functions.  Fallible code returns `Option`/`Except`.
-/

namespace Mobills

/-- Monetary amounts and balances (JS numbers) modelled as exact rationals. -/
abbrev Money := ℚ

/-- Transaction type: sign is implied by the type, not stored (src/types, used
throughout `FinancialContext.tsx` and the calculation hooks). -/
inductive TxType where
  | income
  | expense
deriving DecidableEq, Repr

/-- JS `Date`, decomposed the way the source reads it: `getFullYear`,
`getMonth` (0-based), `getDate` (1-based day), plus the time of day in
minutes.  Comparisons on JS `Date` objects compare timestamps; for calendar
dates in range this is the lexicographic order on (year, month, day, time),
realised below by an injective integer key. -/
structure DateTime where
  year : Int
  month : Nat
  day : Nat
  minute : Nat
deriving DecidableEq, Repr

/-- Injective linearisation of a calendar date-time; monotone in the
timestamp order for dates with `month < 12`, `day ≤ 31`, `minute < 1440`. -/
def DateTime.key (d : DateTime) : Int :=
  ((d.year * 12 + d.month) * 32 + d.day) * 1440 + d.minute

/-- Boolean timestamp comparison `a <= b` on JS dates. -/
def dleb (a b : DateTime) : Bool := a.key ≤ b.key

/-- `Account` as loaded by `FinancialContext.tsx` (`loadAllData`). -/
inductive AccountType where
  | checking
  | savings
  | investment
deriving DecidableEq, Repr

structure Account where
  id : String
  name : String
  bank : String
  type : AccountType
  balance : Money
  color : String
  createdAt : DateTime
deriving DecidableEq, Repr

/-- `Transaction` as held in local state: `account` is the owning account's
display name (`accounts?.name` in the load mapping of `FinancialContext.tsx`). -/
structure Transaction where
  id : String
  description : String
  amount : Money
  type : TxType
  category : String
  account : String
  date : DateTime
  recurring : Bool
  tags : List String
deriving DecidableEq, Repr

structure CreditCard where
  id : String
  name : String
  bank : String
  limit : Money
  currentBalance : Money
  dueDate : Nat
  closingDate : Nat
  color : String
deriving DecidableEq, Repr

inductive GoalCategory where
  | savings
  | investment
  | purchase
  | debt
  | emergency
deriving DecidableEq, Repr

structure FinancialGoal where
  id : String
  title : String
  description : String
  targetAmount : Money
  currentAmount : Money
  deadline : DateTime
  category : GoalCategory
  color : String
  createdAt : DateTime
  completed : Bool
deriving DecidableEq, Repr

inductive BudgetPeriod where
  | weekly
  | monthly
  | yearly
deriving DecidableEq, Repr

structure Budget where
  id : String
  category : String
  limit : Money
  spent : Money
  period : BudgetPeriod
  color : String
  alerts : Bool
deriving DecidableEq, Repr

/-! ## Aggregation layer (`src/src/hooks/useFinancialCalculations.ts`) -/

/-- `filteredTransactions`: the optional date-range filter applied before all
derived metrics (`useFinancialCalculations.ts`, lines 48-54). -/
def filteredTransactions (ts : List Transaction) (range : Option (DateTime × DateTime)) :
    List Transaction :=
  match range with
  | none => ts
  | some (s, e) => ts.filter (fun t => dleb s t.date && dleb t.date e)

/-- Sum of the amounts of the income-typed transactions
(`useFinancialCalculations.ts`, lines 58-60). -/
def incomeTotal (ts : List Transaction) : Money :=
  ((ts.filter (fun t => t.type == TxType.income)).map (fun t => t.amount)).sum

/-- Sum of the amounts of the expense-typed transactions
(`useFinancialCalculations.ts`, lines 62-64). -/
def expenseTotal (ts : List Transaction) : Money :=
  ((ts.filter (fun t => t.type == TxType.expense)).map (fun t => t.amount)).sum

/-- `savingsRate` (`useFinancialCalculations.ts`, lines 66-67; identically in
the second variant of the hook):
`income > 0 ? ((income - expenses) / income) * 100 : 0`. -/
def savingsRate (ts : List Transaction) : ℚ :=
  let income := incomeTotal ts
  let expenses := expenseTotal ts
  let savings := income - expenses
  if 0 < income then savings / income * 100 else 0

/-- Per-category total of expense-typed transactions
(`useFinancialCalculations.ts`, lines 78-83); a category absent from the
record reads as 0 (`categoryTotals[budget.category] || 0`). -/
def categoryTotals (ts : List Transaction) (cat : String) : Money :=
  ((ts.filter (fun t => t.type == TxType.expense && t.category == cat)).map
    (fun t => t.amount)).sum

inductive BudgetStatus where
  | under
  | atLimit
  | over
deriving DecidableEq, Repr

/-- Budget utilization percentage (`useFinancialCalculations.ts`, line 137):
`budget.limit > 0 ? (spent / budget.limit) * 100 : 0`. -/
def budgetUtilization (spent lim : Money) : ℚ :=
  if 0 < lim then spent / lim * 100 else 0

/-- Budget status (`useFinancialCalculations.ts`, line 139):
`utilization < 100 ? under : utilization === 100 ? at : over`. -/
def budgetStatus (spent lim : Money) : BudgetStatus :=
  if budgetUtilization spent lim < 100 then BudgetStatus.under
  else if budgetUtilization spent lim = 100 then BudgetStatus.atLimit
  else BudgetStatus.over

/-- The `spent` value fed to the budget loop (`useFinancialCalculations.ts`,
line 136): the per-category expense total, not the stored `Budget.spent`. -/
def budgetSpentOf (ts : List Transaction) (b : Budget) : Money :=
  categoryTotals ts b.category

/-- Utilization of one budget as computed by the hook. -/
def budgetUtilizationOf (ts : List Transaction) (b : Budget) : ℚ :=
  budgetUtilization (budgetSpentOf ts b) b.limit

/-- Status of one budget as computed by the hook. -/
def budgetStatusOf (ts : List Transaction) (b : Budget) : BudgetStatus :=
  budgetStatus (budgetSpentOf ts b) b.limit

/-! ## Claim C4: savings rate at zero income -/

/-- Claim C4: for every list of transactions, whenever the income total is 0
the computed savings rate is exactly 0, regardless of the expense total; the
division is guarded so no division by zero occurs. -/
theorem savingsRate_zero_income (ts : List Transaction)
    (h : incomeTotal ts = 0) : savingsRate ts = 0 := by
  simp only [savingsRate, h]
  norm_num

/-- A concrete expense transaction used by witnesses. -/
def sampleExpense : Transaction where
  id := "t1"
  description := "mercado"
  amount := 50
  type := TxType.expense
  category := "Alimentacao"
  account := "Conta"
  date := ⟨2024, 0, 5, 0⟩
  recurring := false
  tags := []

/-- Witness for C4 at a concrete input: a single expense with no income. -/
theorem savingsRate_zero_income_witness :
    incomeTotal [sampleExpense] = 0 ∧ savingsRate [sampleExpense] = 0 := by
  refine ⟨by simp [incomeTotal, sampleExpense], ?_⟩
  exact savingsRate_zero_income _ (by simp [incomeTotal, sampleExpense])

/-! ## Claim C2: budget status three-state classification -/

/-- Counterexample for C2 as stated: with `limit = 0` and `spent = 5 > limit`
the code yields `under` (the utilization is defined to be 0 when the limit is
not positive, and `0 < 100`), whereas the claim requires `over` whenever
spend strictly exceeds the limit, "including limit = 0". -/
theorem budgetStatus_zero_limit_counterexample :
    budgetStatus 5 0 = BudgetStatus.under ∧
    BudgetStatus.under ≠ BudgetStatus.over ∧ (0 : Money) < 5 := by
  refine ⟨?_, by decide, by norm_num⟩
  simp only [budgetStatus, budgetUtilization]
  norm_num

/-- Claim C2 (amended): for every strictly positive limit the status is
`atLimit` exactly when spend equals the limit, `over` exactly when spend
strictly exceeds it, and `under` exactly when spend is strictly below it;
when the limit is not strictly positive (in particular `limit = 0`) the
status is always `under`, regardless of spend. -/
theorem budgetStatus_characterization (spent lim : Money) :
    (0 < lim →
      ((budgetStatus spent lim = BudgetStatus.atLimit ↔ spent = lim) ∧
       (budgetStatus spent lim = BudgetStatus.over ↔ lim < spent) ∧
       (budgetStatus spent lim = BudgetStatus.under ↔ spent < lim))) ∧
    (lim ≤ 0 → budgetStatus spent lim = BudgetStatus.under) := by
  constructor
  · intro hlim
    have hne : lim ≠ 0 := ne_of_gt hlim
    have hu : budgetUtilization spent lim = spent / lim * 100 := by
      simp [budgetUtilization, hlim]
    have hlt : spent / lim * 100 < 100 ↔ spent < lim := by
      rw [mul_lt_iff_lt_one_left (by norm_num : (0 : ℚ) < 100), div_lt_one hlim]
    have heq : spent / lim * 100 = 100 ↔ spent = lim := by
      constructor
      · intro h
        have h1 : spent / lim * 100 = 1 * 100 := by rw [h, one_mul]
        have h2 : spent / lim = 1 := mul_right_cancel₀ (by norm_num) h1
        rw [div_eq_iff hne, one_mul] at h2
        exact h2
      · intro h
        rw [h, div_self hne, one_mul]
    rcases lt_trichotomy spent lim with h | h | h
    · have h1 : budgetStatus spent lim = BudgetStatus.under := by
        simp only [budgetStatus, hu]
        rw [if_pos (hlt.mpr h)]
      refine ⟨?_, ?_, ?_⟩
      · rw [h1]; exact iff_of_false (by decide) (ne_of_lt h)
      · rw [h1]; exact iff_of_false (by decide) (lt_asymm h)
      · rw [h1]; exact iff_of_true rfl h
    · have h1 : budgetStatus spent lim = BudgetStatus.atLimit := by
        simp only [budgetStatus, hu]
        rw [if_neg (by rw [hlt, h]; exact lt_irrefl lim), if_pos (heq.mpr h)]
      refine ⟨?_, ?_, ?_⟩
      · rw [h1]; exact iff_of_true rfl h
      · rw [h1]; exact iff_of_false (by decide) (by rw [h]; exact lt_irrefl lim)
      · rw [h1]; exact iff_of_false (by decide) (by rw [h]; exact lt_irrefl lim)
    · have h1 : budgetStatus spent lim = BudgetStatus.over := by
        simp only [budgetStatus, hu]
        rw [if_neg (by rw [hlt]; exact lt_asymm h), if_neg (by rw [heq]; exact ne_of_gt h)]
      refine ⟨?_, ?_, ?_⟩
      · rw [h1]; exact iff_of_false (by decide) (ne_of_gt h)
      · rw [h1]; exact iff_of_true rfl h
      · rw [h1]; exact iff_of_false (by decide) (lt_asymm h)
  · intro hlim
    have hnl : ¬ 0 < lim := not_lt.mpr hlim
    simp [budgetStatus, budgetUtilization, hnl]

/-- Witness for C2 (amended) at a concrete input: spend equal to a positive
limit is classified `atLimit`. -/
theorem budgetStatus_characterization_witness :
    (0 : Money) < 1 ∧ budgetStatus 1 1 = BudgetStatus.atLimit := by
  refine ⟨by norm_num, ?_⟩
  exact ((budgetStatus_characterization 1 1).1 (by norm_num)).1.mpr rfl

/-! ## Claim C9: budget figures derive only from expense category totals -/

/-- Claim C9: budget utilization and status are computed exclusively from the
per-category totals of expense-typed transactions: prepending an income-typed
transaction changes neither the category totals nor any budget's utilization
or status, and the stored `Budget.spent` field is never read — replacing it
by an arbitrary value leaves both results unchanged
(`useFinancialCalculations.ts`, lines 78-83 and 135-140: the loop reads
`categoryTotals[budget.category] || 0`, not `budget.spent`). -/
theorem budget_from_expense_totals_only (ts : List Transaction) (t : Transaction)
    (cat : String) (b : Budget) (q : Money) :
    (t.type = TxType.income →
      (categoryTotals (t :: ts) cat = categoryTotals ts cat ∧
       budgetUtilizationOf (t :: ts) b = budgetUtilizationOf ts b ∧
       budgetStatusOf (t :: ts) b = budgetStatusOf ts b)) ∧
    (budgetUtilizationOf ts { b with spent := q } = budgetUtilizationOf ts b ∧
     budgetStatusOf ts { b with spent := q } = budgetStatusOf ts b) := by
  refine ⟨fun h => ?_, rfl, rfl⟩
  have hcat : ∀ c, categoryTotals (t :: ts) c = categoryTotals ts c := by
    intro c
    simp [categoryTotals, h]
  exact ⟨hcat cat, by simp [budgetUtilizationOf, budgetSpentOf, hcat],
    by simp [budgetStatusOf, budgetSpentOf, hcat]⟩

/-- A concrete income transaction used by witnesses. -/
def sampleIncome : Transaction where
  id := "t2"
  description := "salario"
  amount := 1000
  type := TxType.income
  category := "Salario"
  account := "Conta"
  date := ⟨2024, 0, 5, 0⟩
  recurring := false
  tags := []

/-- A concrete budget used by witnesses; its stored `spent` is deliberately
out of sync with the transaction data. -/
def sampleBudget : Budget where
  id := "b1"
  category := "Alimentacao"
  limit := 100
  spent := 77
  period := BudgetPeriod.monthly
  color := "red"
  alerts := false

/-- Witness for C9 at a concrete input. -/
theorem budget_from_expense_totals_only_witness :
    categoryTotals [sampleIncome] "Alimentacao" = categoryTotals [] "Alimentacao" ∧
    budgetStatusOf [sampleIncome] sampleBudget = budgetStatusOf [] sampleBudget :=
  ⟨((budget_from_expense_totals_only [] sampleIncome "Alimentacao" sampleBudget 0).1 rfl).1,
   ((budget_from_expense_totals_only [] sampleIncome "Alimentacao" sampleBudget 0).1 rfl).2.2⟩

/-! ## Claim C7: remote gateway response handler (`src/src/lib/api.ts`) -/

/-- The only part of a parsed JSON body that `handleResponse` reads: its
optional `message` field (`none` models a missing/undefined field). -/
structure JsonValue where
  message : Option String
deriving DecidableEq, Repr

/-- A transport response as `handleResponse` consumes it.  `body = none`
models a body that `response.json()` cannot parse (the promise rejects). -/
structure FetchResponse where
  ok : Bool
  status : Nat
  statusText : String
  body : Option JsonValue
deriving DecidableEq, Repr

inductive RequestFailure where
  | parseFailure
  | requestError (msg : String)
deriving DecidableEq, Repr

/-- The message of the thrown error on the non-success path of
`handleResponse` (`api.ts`, lines 25-27):
`(await response.json().catch(() => ({ message: response.statusText }))).message
 || 'Request failed'`; JS `||` falls through on `undefined` and on the empty
string. -/
def errMessage (r : FetchResponse) : String :=
  match r.body with
  | some b =>
    match b.message with
    | some s => if s = "" then "Request failed" else s
    | none => "Request failed"
  | none => if r.statusText = "" then "Request failed" else r.statusText

/-- `handleResponse` (`api.ts`, lines 17-29).  On `ok` with status 204 it
returns `null` without touching the body; on `ok` otherwise it returns the
parsed body, the parse failure propagating if the body is not JSON; on
non-success it throws an error carrying `errMessage`. -/
def handleResponse (r : FetchResponse) : Except RequestFailure (Option JsonValue) :=
  if r.ok then
    if r.status = 204 then Except.ok none
    else
      match r.body with
      | some b => Except.ok (some b)
      | none => Except.error RequestFailure.parseFailure
  else
    Except.error (RequestFailure.requestError (errMessage r))

/-- Counterexample for C7 as stated: a success (`ok`, status 200) response
whose body is not parseable JSON makes `handleResponse` fail, so "fails if
and only if the response is non-success" is false in the only-if direction. -/
theorem handleResponse_ok_unparseable_counterexample :
    (FetchResponse.mk true 200 "OK" none).ok = true ∧
    handleResponse (FetchResponse.mk true 200 "OK" none) =
      Except.error RequestFailure.parseFailure :=
  ⟨rfl, rfl⟩

/-- Claim C7 (amended): `handleResponse` fails on every non-success response,
and on a success response exactly when the status is not 204 and the body is
unparseable; a 204 success yields `null` whatever the body holds (it is never
parsed); a non-204 success with a parseable body yields that body; on a
non-success response the error carries the server-provided message when one
parses non-empty, and falls back to the transport status text when the error
body cannot be parsed (a generic message replaces an absent or empty one). -/
theorem handleResponse_characterization (r : FetchResponse) :
    (r.ok = false → handleResponse r =
      Except.error (RequestFailure.requestError (errMessage r))) ∧
    (r.ok = true → r.status = 204 → handleResponse r = Except.ok none) ∧
    (r.ok = true → r.status ≠ 204 → ∀ b, r.body = some b →
      handleResponse r = Except.ok (some b)) ∧
    (r.ok = true → r.status ≠ 204 → r.body = none →
      handleResponse r = Except.error RequestFailure.parseFailure) ∧
    (r.ok = false → r.body = none → r.statusText ≠ "" →
      handleResponse r = Except.error (RequestFailure.requestError r.statusText)) ∧
    (r.ok = false → ∀ b m, r.body = some b → b.message = some m → m ≠ "" →
      handleResponse r = Except.error (RequestFailure.requestError m)) := by
  refine ⟨fun h => ?_, fun h h204 => ?_, fun h h204 b hb => ?_, fun h h204 hb => ?_,
    fun h hb hst => ?_, fun h b m hb hm hne => ?_⟩
  · simp [handleResponse, h]
  · simp [handleResponse, h, h204]
  · simp [handleResponse, h, h204, hb]
  · simp [handleResponse, h, h204, hb]
  · simp [handleResponse, errMessage, h, hb, hst]
  · simp [handleResponse, errMessage, h, hb, hm, hne]

/-- Witness for C7 (amended) at concrete inputs: a 404 with a parsed error
body carries the server message, and a 204 success yields `null`. -/
theorem handleResponse_characterization_witness :
    handleResponse (FetchResponse.mk false 404 "Not Found" (some ⟨some "nope"⟩)) =
      Except.error (RequestFailure.requestError "nope") ∧
    handleResponse (FetchResponse.mk true 204 "No Content" none) = Except.ok none :=
  ⟨(handleResponse_characterization
      (FetchResponse.mk false 404 "Not Found" (some ⟨some "nope"⟩))).2.2.2.2.2
        rfl ⟨some "nope"⟩ "nope" rfl rfl (by decide),
   (handleResponse_characterization
      (FetchResponse.mk true 204 "No Content" none)).2.1 rfl rfl⟩

/-! ## Claim C6: bounded retry helper (`src/src/hooks/useApi.ts`) -/

/-- Trace of one run of `execute`: how many times the wrapped call was
attempted, the delays scheduled between consecutive attempts, and the final
data if some attempt succeeded. -/
structure RetryRun (α : Type) where
  attemptsMade : Nat
  delays : List Nat
  outcome : Option α
deriving DecidableEq, Repr

/-- The recursive `attempt` closure of `execute` (`useApi.ts`, lines 33-51).
`f n` is the outcome of the wrapped `apiFunction` on the n-th attempt
(0-based); `fuel` is the number of retries still allowed, i.e.
`retryCount - 1 - attempts`, so the guard `attempts < retryCount` after the
increment corresponds to `fuel > 0`.  On failure with fuel left, a retry is
scheduled after `retryDelay * attempts` milliseconds (with `attempts` already
incremented). -/
def retryGo (f : Nat → Option α) (retryDelay : Nat) :
    Nat → Nat → List Nat → RetryRun α
  | attempts, fuel, delays =>
    match f attempts with
    | some d => ⟨attempts + 1, delays, some d⟩
    | none =>
      match fuel with
      | 0 => ⟨attempts + 1, delays, none⟩
      | Nat.succ fuel2 =>
        retryGo f retryDelay (attempts + 1) fuel2 (delays ++ [retryDelay * (attempts + 1)])

/-- `execute` with options `retryCount`, `retryDelay`: attempts start at 0
with `retryCount - 1` retries available. -/
def runRetry (f : Nat → Option α) (retryCount retryDelay : Nat) : RetryRun α :=
  retryGo f retryDelay 0 (retryCount - 1) []

/-- Claim C6: with the default options (`retryCount = 3`,
`retryDelay = 1000`), a wrapped call that always fails is attempted exactly
3 times with delays 1000 ms then 2000 ms — the doubling schedule
`1000 * 2 ^ i` — before the failure is surfaced, and a call that first
succeeds on attempt `j` is attempted exactly `j + 1` times, its data is
returned, and no further attempts are made. -/
theorem useApi_retry_behaviour (α : Type) (f : Nat → Option α) :
    ((∀ n, f n = none) →
      runRetry f 3 1000 = ⟨3, [1000 * 2 ^ 0, 1000 * 2 ^ 1], none⟩ ∧
      1000 * 2 ^ 0 < 1000 * 2 ^ 1) ∧
    (∀ j x, j < 3 → f j = some x → (∀ i, i < j → f i = none) →
      runRetry f 3 1000 = ⟨j + 1, (List.range j).map (fun i => 1000 * (i + 1)), some x⟩) := by
  constructor
  · intro h
    refine ⟨?_, by norm_num⟩
    simp [runRetry, retryGo, h 0, h 1, h 2]
  · intro j x hj hx hfail
    interval_cases j
    · simp [runRetry, retryGo, hx]
    · simp [runRetry, retryGo, hfail 0 (by norm_num), hx, List.range_succ]
    · simp [runRetry, retryGo, hfail 0 (by norm_num), hfail 1 (by norm_num), hx,
        List.range_succ]

/-- Witness for C6 at concrete inputs: an always-failing call makes exactly 3
attempts with increasing delays, and a call succeeding on its second attempt
stops after 2 attempts with the data returned. -/
theorem useApi_retry_behaviour_witness :
    runRetry (fun _ => (none : Option Nat)) 3 1000 = ⟨3, [1000, 2000], none⟩ ∧
    runRetry (fun n => if n = 1 then some 42 else none) 3 1000 = ⟨2, [1000], some 42⟩ := by
  constructor
  · have h := (useApi_retry_behaviour Nat (fun _ => none)).1 (fun _ => rfl)
    rw [h.1]
    norm_num
  · have h := (useApi_retry_behaviour Nat (fun n => if n = 1 then some 42 else none)).2
      1 42 (by norm_num) (by norm_num) (by intro i hi; interval_cases i; rfl)
    rw [h]
    norm_num [List.range_succ]

/-! ## Claim C3: monthly totals and calendar month boundaries -/

/-- Gregorian leap-year rule, as realised by JS `Date` day rollover. -/
def isLeapYear (y : Int) : Bool :=
  y % 4 == 0 && (y % 100 != 0 || y % 400 == 0)

/-- Number of days of the 0-based month `m` of year `y`: the day-of-month of
`new Date(y, m + 1, 0)`. -/
def daysInMonth (y : Int) (m : Nat) : Nat :=
  if m == 1 then (if isLeapYear y then 29 else 28)
  else if m == 3 || m == 5 || m == 8 || m == 10 then 30
  else 31

/-- `getStartOfMonth` (`src/src/lib/utils.ts`, lines 45-47):
`new Date(y, m, 1)` — first day of the month at midnight. -/
def getStartOfMonth (d : DateTime) : DateTime :=
  ⟨d.year, d.month, 1, 0⟩

/-- `getEndOfMonth` (`src/src/lib/utils.ts`, lines 49-51):
`new Date(y, m + 1, 0)` — the last calendar day of the month, but at
midnight (00:00), not at the end of that day. -/
def getEndOfMonth (d : DateTime) : DateTime :=
  ⟨d.year, d.month, daysInMonth d.year d.month, 0⟩

/-- The current-month transaction filter of the calculations hook
(`src/unnamed/part_003`, lines 67-69):
`t.date >= currentMonthStart && t.date <= currentMonthEnd`. -/
def monthlyTransactions (ts : List Transaction) (now : DateTime) : List Transaction :=
  ts.filter (fun t => dleb (getStartOfMonth now) t.date && dleb t.date (getEndOfMonth now))

/-- `monthlyIncome` of the calculations hook (`src/unnamed/part_003`,
lines 71-73): income total over the range-filtered current-month list. -/
def monthlyIncome (ts : List Transaction) (now : DateTime) : Money :=
  incomeTotal (monthlyTransactions ts now)

/-- `getMonthlyIncome` (`src/src/contexts/FinancialContext.tsx`,
lines 483-494): the sibling implementation of the same metric, filtering by
`getMonth()`/`getFullYear()` equality instead of date-range comparison. -/
def getMonthlyIncome (ts : List Transaction) (now : DateTime) : Money :=
  ((ts.filter (fun t =>
      t.type == TxType.income && t.date.month == now.month && t.date.year == now.year)).map
    (fun t => t.amount)).sum

/-- The claim's membership predicate: the date falls within the first through
the last calendar day of the current month, inclusive (equivalently, same
calendar month and year). -/
def inCalendarMonth (t : Transaction) (now : DateTime) : Bool :=
  t.date.year == now.year && t.date.month == now.month

/-! ## Entity stores (`src/src/contexts/FinancialContext.tsx`)

Local state and the mutation methods.  Remote writes are modelled by boolean
success parameters (`true` = the awaited call succeeded); server-assigned
identities and timestamps are parameters.  Every method is a total function
returning the new local state together with an `errored` flag: the source
wraps each body in `try/catch` whose catch branch only logs and toasts, so
the promise always resolves and no error propagates to the caller. -/

/-- `Omit<Account, 'id' | 'createdAt'>`. -/
structure AccountDraft where
  name : String
  bank : String
  type : AccountType
  balance : Money
  color : String
deriving DecidableEq, Repr

/-- `Omit<Transaction, 'id'>`. -/
structure TxDraft where
  description : String
  amount : Money
  type : TxType
  category : String
  account : String
  date : DateTime
  recurring : Bool
  tags : List String
deriving DecidableEq, Repr

/-- `Omit<CreditCard, 'id'>`. -/
structure CreditCardDraft where
  name : String
  bank : String
  limit : Money
  currentBalance : Money
  dueDate : Nat
  closingDate : Nat
  color : String
deriving DecidableEq, Repr

/-- `Omit<FinancialGoal, 'id'>` (the server assigns `created_at`). -/
structure GoalDraft where
  title : String
  description : String
  targetAmount : Money
  currentAmount : Money
  deadline : DateTime
  category : GoalCategory
  color : String
  completed : Bool
deriving DecidableEq, Repr

/-- `Omit<Budget, 'id' | 'spent'>`. -/
structure BudgetDraft where
  category : String
  limit : Money
  period : BudgetPeriod
  color : String
  alerts : Bool
deriving DecidableEq, Repr

/-- `Partial<Account>` restricted to the fields `updateAccount` forwards. -/
structure AccountPatch where
  name : Option String := none
  bank : Option String := none
  type : Option AccountType := none
  balance : Option Money := none
  color : Option String := none
deriving DecidableEq, Repr

structure GoalPatch where
  title : Option String := none
  description : Option String := none
  targetAmount : Option Money := none
  currentAmount : Option Money := none
  deadline : Option DateTime := none
  category : Option GoalCategory := none
  color : Option String := none
  completed : Option Bool := none
deriving DecidableEq, Repr

structure BudgetPatch where
  category : Option String := none
  limit : Option Money := none
  spent : Option Money := none
  period : Option BudgetPeriod := none
  color : Option String := none
  alerts : Option Bool := none
deriving DecidableEq, Repr

def mkAccount (d : AccountDraft) (newId : String) (createdAt : DateTime) : Account :=
  ⟨newId, d.name, d.bank, d.type, d.balance, d.color, createdAt⟩

def mkTransaction (d : TxDraft) (newId : String) : Transaction :=
  ⟨newId, d.description, d.amount, d.type, d.category, d.account, d.date, d.recurring, d.tags⟩

def mkCreditCard (d : CreditCardDraft) (newId : String) : CreditCard :=
  ⟨newId, d.name, d.bank, d.limit, d.currentBalance, d.dueDate, d.closingDate, d.color⟩

def mkGoal (d : GoalDraft) (newId : String) (createdAt : DateTime) : FinancialGoal :=
  ⟨newId, d.title, d.description, d.targetAmount, d.currentAmount, d.deadline,
    d.category, d.color, createdAt, d.completed⟩

/-- `addBudget` inserts with `spent: 0` and the local record reads it back. -/
def mkBudget (d : BudgetDraft) (newId : String) : Budget :=
  ⟨newId, d.category, d.limit, 0, d.period, d.color, d.alerts⟩

/-- Shallow merge `{ ...account, ...accountData }` on the defined fields. -/
def applyAccountPatch (a : Account) (p : AccountPatch) : Account :=
  { a with name := p.name.getD a.name, bank := p.bank.getD a.bank,
           type := p.type.getD a.type, balance := p.balance.getD a.balance,
           color := p.color.getD a.color }

def applyGoalPatch (g : FinancialGoal) (p : GoalPatch) : FinancialGoal :=
  { g with title := p.title.getD g.title, description := p.description.getD g.description,
           targetAmount := p.targetAmount.getD g.targetAmount,
           currentAmount := p.currentAmount.getD g.currentAmount,
           deadline := p.deadline.getD g.deadline, category := p.category.getD g.category,
           color := p.color.getD g.color, completed := p.completed.getD g.completed }

def applyBudgetPatch (b : Budget) (p : BudgetPatch) : Budget :=
  { b with category := p.category.getD b.category, limit := p.limit.getD b.limit,
           spent := p.spent.getD b.spent, period := p.period.getD b.period,
           color := p.color.getD b.color, alerts := p.alerts.getD b.alerts }

/-- The five local collections owned by the provider. -/
structure LocalState where
  accounts : List Account
  transactions : List Transaction
  creditCards : List CreditCard
  goals : List FinancialGoal
  budgets : List Budget
deriving DecidableEq, Repr

/-- Outcome of one mutation method: the new local state, plus whether the
catch branch ran (the error is only toasted; the promise still resolves). -/
structure MutResult where
  state : LocalState
  errored : Bool
deriving DecidableEq, Repr

/-- The signed balance change applied on `addTransaction`
(`FinancialContext.tsx`, lines 255-257). -/
def txBalanceChange (d : TxDraft) : Money :=
  match d.type with
  | TxType.income => d.amount
  | TxType.expense => -d.amount

/-- The signed balance change applied on `deleteTransaction`
(`FinancialContext.tsx`, lines 423-425). -/
def delBalanceChange (t : Transaction) : Money :=
  match t.type with
  | TxType.income => -t.amount
  | TxType.expense => t.amount

/-- The `setAccounts(prev.map(...))` balance adjustment shared by
`addTransaction` and `deleteTransaction`. -/
def adjustBalance (accId : String) (c : Money) (l : List Account) : List Account :=
  l.map (fun a => if a.id == accId then { a with balance := a.balance + c } else a)

/-- `addAccount` (lines 183-226): one insert, then prepend the new record. -/
def addAccount (s : LocalState) (d : AccountDraft) (newId : String)
    (createdAt : DateTime) (rIns : Bool) : MutResult :=
  if rIns then ⟨{ s with accounts := mkAccount d newId createdAt :: s.accounts }, false⟩
  else ⟨s, true⟩

/-- `addTransaction` (lines 228-297): find the account by display name (throw
if absent), insert the transaction, update the account balance remotely, and
only then patch both local collections.  Any remote failure is caught before
either `setState` runs. -/
def addTransaction (s : LocalState) (d : TxDraft) (newId : String)
    (rIns rBal : Bool) : MutResult :=
  match s.accounts.find? (fun a => a.name == d.account) with
  | none => ⟨s, true⟩
  | some acc =>
    if rIns then
      if rBal then
        ⟨{ s with accounts := adjustBalance acc.id (txBalanceChange d) s.accounts,
                  transactions := mkTransaction d newId :: s.transactions }, false⟩
      else ⟨s, true⟩
    else ⟨s, true⟩

/-- `addCreditCard` (lines 299-345). -/
def addCreditCard (s : LocalState) (d : CreditCardDraft) (newId : String)
    (rIns : Bool) : MutResult :=
  if rIns then ⟨{ s with creditCards := mkCreditCard d newId :: s.creditCards }, false⟩
  else ⟨s, true⟩

/-- `updateAccount` (lines 347-382). -/
def updateAccount (s : LocalState) (id : String) (p : AccountPatch) (rUpd : Bool) :
    MutResult :=
  if rUpd then
    ⟨{ s with accounts := s.accounts.map (fun a => if a.id == id then applyAccountPatch a p else a) }, false⟩
  else ⟨s, true⟩

/-- `deleteAccount` (lines 384-410). -/
def deleteAccount (s : LocalState) (id : String) (rDel : Bool) : MutResult :=
  if rDel then
    ⟨{ s with accounts := s.accounts.filter (fun a => !(a.id == id)) }, false⟩
  else ⟨s, true⟩

/-- `deleteTransaction` (lines 412-477): find transaction and account locally
(throw if absent), update the balance via the `update_account_balance` RPC or,
when that fails, via a read-then-write fallback, then delete the transaction;
local state is patched only after all remote steps.  `rRpc`/`rDirect` are the
two balance-write routes (the fallback read failing silently substitutes 0
remotely but never touches local state), `rDel` the delete.  The local
adjustment is `a.balance + balanceChange` on either route. -/
def deleteTransaction (s : LocalState) (id : String)
    (rRpc rDirect rDel : Bool) : MutResult :=
  match s.transactions.find? (fun t => t.id == id) with
  | none => ⟨s, true⟩
  | some txn =>
    match s.accounts.find? (fun a => a.name == txn.account) with
    | none => ⟨s, true⟩
    | some acc =>
      if rRpc || rDirect then
        if rDel then
          ⟨{ s with accounts := adjustBalance acc.id (delBalanceChange txn) s.accounts,
                    transactions := s.transactions.filter (fun t => !(t.id == id)) }, false⟩
        else ⟨s, true⟩
      else ⟨s, true⟩

/-- `addGoal` (lines 510-559). -/
def addGoal (s : LocalState) (d : GoalDraft) (newId : String) (createdAt : DateTime)
    (rIns : Bool) : MutResult :=
  if rIns then ⟨{ s with goals := mkGoal d newId createdAt :: s.goals }, false⟩
  else ⟨s, true⟩

/-- `updateGoal` (lines 561-599). -/
def updateGoal (s : LocalState) (id : String) (p : GoalPatch) (rUpd : Bool) : MutResult :=
  if rUpd then
    ⟨{ s with goals := s.goals.map (fun g => if g.id == id then applyGoalPatch g p else g) }, false⟩
  else ⟨s, true⟩

/-- `deleteGoal` (lines 601-627). -/
def deleteGoal (s : LocalState) (id : String) (rDel : Bool) : MutResult :=
  if rDel then
    ⟨{ s with goals := s.goals.filter (fun g => !(g.id == id)) }, false⟩
  else ⟨s, true⟩

/-- `addBudget` (lines 630-674). -/
def addBudget (s : LocalState) (d : BudgetDraft) (newId : String) (rIns : Bool) :
    MutResult :=
  if rIns then ⟨{ s with budgets := mkBudget d newId :: s.budgets }, false⟩
  else ⟨s, true⟩

/-- `updateBudget` (lines 676-712). -/
def updateBudget (s : LocalState) (id : String) (p : BudgetPatch) (rUpd : Bool) :
    MutResult :=
  if rUpd then
    ⟨{ s with budgets := s.budgets.map (fun b => if b.id == id then applyBudgetPatch b p else b) }, false⟩
  else ⟨s, true⟩

/-- `deleteBudget` (lines 714-740). -/
def deleteBudget (s : LocalState) (id : String) (rDel : Bool) : MutResult :=
  if rDel then
    ⟨{ s with budgets := s.budgets.filter (fun b => !(b.id == id)) }, false⟩
  else ⟨s, true⟩

/-! ## Claim C10: local atomicity of every store mutation on remote failure -/

/-- Claim C10: if any remote write inside a mutation method fails, the method
leaves every local collection exactly as it was and merely records the caught
error (the result type being total reflects that the promise resolves and
nothing propagates to the caller).  For `addTransaction` this covers both the
insert and the balance write; for `deleteTransaction` it covers the balance
write (both the RPC route and the direct fallback failing) and the delete. -/
theorem storeMutations_atomic_on_error :
    (∀ s d newId createdAt, addAccount s d newId createdAt false = ⟨s, true⟩) ∧
    (∀ s d newId rIns rBal, rIns = false ∨ rBal = false →
      addTransaction s d newId rIns rBal = ⟨s, true⟩) ∧
    (∀ s d newId, addCreditCard s d newId false = ⟨s, true⟩) ∧
    (∀ s id p, updateAccount s id p false = ⟨s, true⟩) ∧
    (∀ s id, deleteAccount s id false = ⟨s, true⟩) ∧
    (∀ s id rRpc rDirect rDel, (rRpc = false ∧ rDirect = false) ∨ rDel = false →
      deleteTransaction s id rRpc rDirect rDel = ⟨s, true⟩) ∧
    (∀ s d newId createdAt, addGoal s d newId createdAt false = ⟨s, true⟩) ∧
    (∀ s id p, updateGoal s id p false = ⟨s, true⟩) ∧
    (∀ s id, deleteGoal s id false = ⟨s, true⟩) ∧
    (∀ s d newId, addBudget s d newId false = ⟨s, true⟩) ∧
    (∀ s id p, updateBudget s id p false = ⟨s, true⟩) ∧
    (∀ s id, deleteBudget s id false = ⟨s, true⟩) := by
  refine ⟨fun s d newId createdAt => rfl, fun s d newId rIns rBal h => ?_,
    fun s d newId => rfl, fun s id p => rfl, fun s id => rfl,
    fun s id rRpc rDirect rDel h => ?_, fun s d newId createdAt => rfl,
    fun s id p => rfl, fun s id => rfl, fun s d newId => rfl,
    fun s id p => rfl, fun s id => rfl⟩
  · cases hacc : s.accounts.find? (fun a => a.name == d.account) with
    | none => simp [addTransaction, hacc]
    | some acc =>
      rcases h with h | h <;> subst h <;> simp [addTransaction, hacc]
  · cases htx : s.transactions.find? (fun t => t.id == id) with
    | none => simp [deleteTransaction, htx]
    | some txn =>
      cases hacc : s.accounts.find? (fun a => a.name == txn.account) with
      | none => simp [deleteTransaction, htx, hacc]
      | some acc =>
        rcases h with ⟨h1, h2⟩ | h
        · subst h1; subst h2; simp [deleteTransaction, htx, hacc]
        · subst h; simp [deleteTransaction, htx, hacc]

/-- The empty local state. -/
def emptyState : LocalState := ⟨[], [], [], [], []⟩

/-- A concrete transaction draft used by witnesses. -/
def sampleDraft : TxDraft where
  description := "mercado"
  amount := 30
  type := TxType.expense
  category := "Alimentacao"
  account := "Conta"
  date := ⟨2024, 0, 5, 0⟩
  recurring := false
  tags := []

/-- Witness for C10 at a concrete input: a failing transaction insert leaves
the (empty) local state untouched and resolves with the error flagged. -/
theorem storeMutations_atomic_on_error_witness :
    addTransaction emptyState sampleDraft "t9" false true = ⟨emptyState, true⟩ :=
  storeMutations_atomic_on_error.2.1 emptyState sampleDraft "t9" false true (Or.inl rfl)

/-- A transaction dated noon on the last calendar day of January 2024. -/
def lastDayNoonTx : Transaction where
  id := "t3"
  description := "aluguel"
  amount := 1000
  type := TxType.income
  category := "Salario"
  account := "Conta"
  date := ⟨2024, 0, 31, 720⟩
  recurring := false
  tags := []

/-- Now: the same moment, inside January 2024. -/
def janNow : DateTime := ⟨2024, 0, 31, 720⟩

/-- Claim C3, evaluated at the failing input: a transaction dated noon on the
last calendar day of the current month lies inside the calendar month (and
the month-equality implementation `getMonthlyIncome` counts it), yet the
range-based hook implementation `monthlyIncome` excludes it, because
`getEndOfMonth` is the last day at midnight and `t.date <= currentMonthEnd`
then fails — contradicting the claim's "including transactions whose time of
day on the last calendar day is after midnight". -/
theorem monthlyIncome_last_day_noon_excluded :
    inCalendarMonth lastDayNoonTx janNow = true ∧
    monthlyIncome [lastDayNoonTx] janNow = 0 ∧
    getMonthlyIncome [lastDayNoonTx] janNow = 1000 := by
  refine ⟨rfl, by decide, ?_⟩
  simp [getMonthlyIncome, lastDayNoonTx, janNow]

/-! ## Claim C1: account balance invariant under transaction add/delete -/

/-- One user-initiated transaction operation, with the id the persistence
layer assigns to an inserted transaction. -/
inductive TxOp where
  | add (draft : TxDraft) (newId : String)
  | del (id : String)
deriving DecidableEq, Repr

/-- One operation run with every remote write succeeding; `none` when the
method takes its catch branch anyway (referenced account or transaction not
found locally), i.e. the operation did not succeed. -/
def stepOp (op : TxOp) (s : LocalState) : Option LocalState :=
  match op with
  | TxOp.add d newId =>
    let r := addTransaction s d newId true true
    if r.errored then none else some r.state
  | TxOp.del i =>
    let r := deleteTransaction s i true true true
    if r.errored then none else some r.state

/-- Run a sequence of operations, each of which must succeed. -/
def runOps : List TxOp → LocalState → Option LocalState
  | [], s => some s
  | op :: rest, s =>
    match stepOp op s with
    | some s1 => runOps rest s1
    | none => none

/-- Server-assigned identities are unique (spec, section 3): the id of an
inserted transaction is absent from the collection at its insertion point. -/
def freshHead (op : TxOp) (s : LocalState) : Bool :=
  match op with
  | TxOp.add _ newId => s.transactions.all (fun t => !(t.id == newId))
  | TxOp.del _ => true

/-- Freshness of all server-assigned ids along a run. -/
def freshOk : LocalState → List TxOp → Bool
  | _, [] => true
  | s, op :: rest =>
    freshHead op s &&
      (match stepOp op s with
       | some s1 => freshOk s1 rest
       | none => true)

/-- Signed amount of a transaction: income positive, expense negative. -/
def signedAmount (t : Transaction) : Money :=
  match t.type with
  | TxType.income => t.amount
  | TxType.expense => -t.amount

/-- Signed sum of the amounts of the transactions bound (by display name) to
the account named `nm`. -/
def signedSum (ts : List Transaction) (nm : String) : Money :=
  ((ts.filter (fun t => t.account == nm)).map signedAmount).sum

/-- Balance of the account the display name `nm` resolves to — the first
account with that name, the resolution the store methods use — or 0. -/
def balanceOfList (l : List Account) (nm : String) : Money :=
  ((l.find? (fun a => a.name == nm)).map (fun a => a.balance)).getD 0

/-- Balance observation on the local state. -/
def balanceOf (s : LocalState) (nm : String) : Money :=
  balanceOfList s.accounts nm

theorem signedSum_cons (t : Transaction) (ts : List Transaction) (nm : String) :
    signedSum (t :: ts) nm
      = (if t.account == nm then signedAmount t else 0) + signedSum ts nm := by
  cases h : t.account == nm <;> simp [signedSum, List.filter_cons, h]

theorem filter_id_eq_self (ts : List Transaction) (i : String)
    (h : ∀ t ∈ ts, t.id ≠ i) :
    ts.filter (fun t => !(t.id == i)) = ts := by
  apply List.filter_eq_self.mpr
  intro t ht
  simp [h t ht]

theorem signedSum_erase (ts : List Transaction) (i : String) (txn : Transaction)
    (hnd : (ts.map (fun t => t.id)).Nodup)
    (hfind : ts.find? (fun t => t.id == i) = some txn) (nm : String) :
    signedSum (ts.filter (fun t => !(t.id == i))) nm
      = signedSum ts nm - (if txn.account == nm then signedAmount txn else 0) := by
  induction ts with
  | nil => simp [List.find?] at hfind
  | cons t ts ih =>
    rw [List.map_cons, List.nodup_cons] at hnd
    cases h : t.id == i with
    | true =>
      have hid : t.id = i := by simpa using h
      have ht : txn = t := by
        rw [List.find?_cons_of_pos (p := fun t : Transaction => t.id == i) _ h] at hfind
        exact (Option.some_injective _ hfind).symm
      have hall : ∀ u ∈ ts, u.id ≠ i := by
        intro u hu he
        apply hnd.1
        rw [hid, ← he]
        exact List.mem_map_of_mem _ hu
      rw [List.filter_cons_of_neg (p := fun t : Transaction => !(t.id == i)) (by simp [h])]
      rw [filter_id_eq_self ts i hall, signedSum_cons, ht]
      ring
    | false =>
      have hne : ¬ (t.id == i) = true := by simp [h]
      rw [List.find?_cons_of_neg (p := fun t : Transaction => t.id == i) _ hne] at hfind
      rw [List.filter_cons_of_pos (p := fun t : Transaction => !(t.id == i)) (by simp [h])]
      rw [signedSum_cons, signedSum_cons, ih hnd.2 hfind]
      ring

theorem adjust_preserves_id (accId : String) (c : Money) (a : Account) :
    (if a.id == accId then { a with balance := a.balance + c } else a).id = a.id := by
  split <;> rfl

theorem adjust_preserves_name (accId : String) (c : Money) (a : Account) :
    (if a.id == accId then { a with balance := a.balance + c } else a).name = a.name := by
  split <;> rfl

theorem adjustBalance_map_id (accId : String) (c : Money) (l : List Account) :
    (adjustBalance accId c l).map (fun a => a.id) = l.map (fun a => a.id) := by
  induction l with
  | nil => rfl
  | cons a l ih =>
    simp only [adjustBalance, List.map_cons] at ih ⊢
    rw [adjust_preserves_id, ih]

theorem find?_adjustBalance (accId : String) (c : Money) (nm : String) (l : List Account) :
    (adjustBalance accId c l).find? (fun a => a.name == nm)
      = (l.find? (fun a => a.name == nm)).map
          (fun a => if a.id == accId then { a with balance := a.balance + c } else a) := by
  induction l with
  | nil => rfl
  | cons a l ih =>
    simp only [adjustBalance, List.map_cons] at ih ⊢
    cases h : a.name == nm with
    | true =>
      have hf : ((if a.id == accId then { a with balance := a.balance + c } else a).name
          == nm) = true := by
        rw [adjust_preserves_name]; exact h
      rw [List.find?_cons_of_pos (p := fun a : Account => a.name == nm) _ hf,
        List.find?_cons_of_pos (p := fun a : Account => a.name == nm) _ h]
      rfl
    | false =>
      have hf : ¬ ((if a.id == accId then { a with balance := a.balance + c } else a).name
          == nm) = true := by
        rw [adjust_preserves_name]; simp [h]
      rw [List.find?_cons_of_neg (p := fun a : Account => a.name == nm) _ hf,
        List.find?_cons_of_neg (p := fun a : Account => a.name == nm) _ (by simp [h])]
      exact ih

theorem balanceOfList_adjust (l : List Account) (acc : Account) (qnm : String)
    (c : Money) (nm : String)
    (hids : (l.map (fun a => a.id)).Nodup)
    (hfind : l.find? (fun a => a.name == qnm) = some acc) :
    balanceOfList (adjustBalance acc.id c l) nm
      = balanceOfList l nm + (if acc.name == nm then c else 0) := by
  have hqnm : acc.name = qnm := by simpa using List.find?_some hfind
  have hmemacc : acc ∈ l := List.mem_of_find?_eq_some hfind
  by_cases h : qnm = nm
  · subst h
    simp [balanceOfList, find?_adjustBalance, hfind, hqnm]
  · have haccnm : (acc.name == nm) = false := by
      apply beq_eq_false_iff_ne.mpr
      rw [hqnm]; exact h
    cases hf : l.find? (fun a => a.name == nm) with
    | none => simp [balanceOfList, find?_adjustBalance, hf, haccnm]
    | some b =>
      have hbname : b.name = nm := by simpa using List.find?_some hf
      have hbmem : b ∈ l := List.mem_of_find?_eq_some hf
      have hbn : b ≠ acc := by
        intro he
        apply h
        rw [← hqnm, ← hbname, he]
      have hidne : ¬ b.id = acc.id := by
        intro he
        exact hbn (List.inj_on_of_nodup_map hids hbmem hmemacc he)
      simp [balanceOfList, find?_adjustBalance, hf, hidne, haccnm]

theorem signedAmount_mkTransaction (d : TxDraft) (newId : String) :
    signedAmount (mkTransaction d newId) = txBalanceChange d := by
  cases h : d.type <;> simp [signedAmount, mkTransaction, txBalanceChange, h]

theorem delBalanceChange_eq_neg_signed (t : Transaction) :
    delBalanceChange t = -(signedAmount t) := by
  cases h : t.type <;> simp [delBalanceChange, signedAmount, h]

/-- One successful step preserves well-formedness and the per-name difference
between the resolved balance and the signed transaction sum. -/
theorem stepOp_spec (op : TxOp) (s s1 : LocalState)
    (hids : (s.accounts.map (fun a => a.id)).Nodup)
    (htids : (s.transactions.map (fun t => t.id)).Nodup)
    (hfresh : freshHead op s = true)
    (hstep : stepOp op s = some s1) :
    (s1.accounts.map (fun a => a.id)).Nodup ∧
    (s1.transactions.map (fun t => t.id)).Nodup ∧
    ∀ nm, balanceOf s1 nm - signedSum s1.transactions nm
        = balanceOf s nm - signedSum s.transactions nm := by
  cases op with
  | add d newId =>
    cases hacc : s.accounts.find? (fun a => a.name == d.account) with
    | none => simp [stepOp, addTransaction, hacc] at hstep
    | some acc =>
      simp only [stepOp, addTransaction, hacc, if_neg, Bool.false_eq_true,
        not_false_eq_true, if_true, Option.some.injEq] at hstep
      subst hstep
      have hname : acc.name = d.account := by simpa using List.find?_some hacc
      simp only [freshHead, List.all_eq_true] at hfresh
      refine ⟨?_, ?_, ?_⟩
      · simpa [adjustBalance_map_id] using hids
      · simp only [List.map_cons, List.nodup_cons]
        refine ⟨?_, htids⟩
        intro hmem
        rcases List.mem_map.mp hmem with ⟨t, ht, he⟩
        have := hfresh t ht
        simp [mkTransaction] at he
        simp [he] at this
      · intro nm
        have hbal := balanceOfList_adjust s.accounts acc d.account
          (txBalanceChange d) nm hids hacc
        have hsum := signedSum_cons (mkTransaction d newId) s.transactions nm
        show balanceOfList (adjustBalance acc.id (txBalanceChange d) s.accounts) nm
            - signedSum (mkTransaction d newId :: s.transactions) nm
            = balanceOf s nm - signedSum s.transactions nm
        rw [hbal, hsum, signedAmount_mkTransaction]
        have hmkacc : (mkTransaction d newId).account = d.account := rfl
        rw [hmkacc, hname]
        cases h : (d.account == nm) <;> simp [h, balanceOf] <;> ring
  | del i =>
    cases htx : s.transactions.find? (fun t => t.id == i) with
    | none => simp [stepOp, deleteTransaction, htx] at hstep
    | some txn =>
      cases hacc : s.accounts.find? (fun a => a.name == txn.account) with
      | none => simp [stepOp, deleteTransaction, htx, hacc] at hstep
      | some acc =>
        simp only [stepOp, deleteTransaction, htx, hacc, Bool.or_self, if_true,
          Bool.false_eq_true, not_false_eq_true, if_false, Option.some.injEq] at hstep
        subst hstep
        have hname : acc.name = txn.account := by simpa using List.find?_some hacc
        refine ⟨?_, ?_, ?_⟩
        · simpa [adjustBalance_map_id] using hids
        · exact List.Nodup.sublist
            ((List.filter_sublist s.transactions).map (fun t : Transaction => t.id)) htids
        · intro nm
          have hbal := balanceOfList_adjust s.accounts acc txn.account
            (delBalanceChange txn) nm hids hacc
          have hsum := signedSum_erase s.transactions i txn htids htx nm
          show balanceOfList (adjustBalance acc.id (delBalanceChange txn) s.accounts) nm
              - signedSum (s.transactions.filter (fun t => !(t.id == i))) nm
              = balanceOf s nm - signedSum s.transactions nm
          rw [hbal, hsum, delBalanceChange_eq_neg_signed, hname]
          cases h : (txn.account == nm) <;> simp [h, balanceOf] <;> ring

/-- Along a run of successful operations with fresh server ids, the per-name
difference between resolved balance and signed transaction sum is invariant. -/
theorem runOps_spec (ops : List TxOp) : ∀ (s s1 : LocalState),
    (s.accounts.map (fun a => a.id)).Nodup →
    (s.transactions.map (fun t => t.id)).Nodup →
    freshOk s ops = true →
    runOps ops s = some s1 →
    ∀ nm, balanceOf s1 nm - signedSum s1.transactions nm
        = balanceOf s nm - signedSum s.transactions nm := by
  induction ops with
  | nil =>
    intro s s1 _ _ _ hrun nm
    simp only [runOps, Option.some.injEq] at hrun
    rw [hrun]
  | cons op rest ih =>
    intro s s1 hids htids hfresh hrun nm
    cases hstep : stepOp op s with
    | none => simp [runOps, hstep] at hrun
    | some s2 =>
      simp only [runOps, hstep] at hrun
      simp only [freshOk, hstep, Bool.and_eq_true] at hfresh
      obtain ⟨h1, h2, h3⟩ := stepOp_spec op s s2 hids htids hfresh.1 hstep
      rw [ih s2 s1 h1 h2 hfresh.2 hrun nm, h3 nm]

/-- Claim C1: starting from a local state with no transactions (so each
account's balance is its initial balance) and account ids unique, after any
sequence of `addTransaction`/`deleteTransaction` operations that all succeed
(with fresh server-assigned ids), every account name resolves to a balance
equal to its initial balance plus the signed sum (income positive, expense
negative) of the transactions currently present that are bound to it. -/
theorem account_balance_invariant (s s1 : LocalState) (ops : List TxOp)
    (hids : (s.accounts.map (fun a => a.id)).Nodup)
    (hempty : s.transactions = [])
    (hfresh : freshOk s ops = true)
    (hrun : runOps ops s = some s1) :
    ∀ nm, balanceOf s1 nm = balanceOf s nm + signedSum s1.transactions nm := by
  intro nm
  have htids : (s.transactions.map (fun t => t.id)).Nodup := by
    rw [hempty]; exact List.nodup_nil
  have h := runOps_spec ops s s1 hids htids hfresh hrun nm
  have hz : signedSum s.transactions nm = 0 := by
    rw [hempty]; simp [signedSum]
  rw [hz] at h
  linarith

/-- A concrete seed account with initial balance 100. -/
def seedAccount : Account where
  id := "a1"
  name := "Conta"
  bank := "Banco"
  type := AccountType.checking
  balance := 100
  color := "blue"
  createdAt := ⟨2024, 0, 1, 0⟩

/-- Seed state: one account, no transactions. -/
def seedState : LocalState := ⟨[seedAccount], [], [], [], []⟩

/-- A concrete income transaction draft used by the C1 witness. -/
def incomeDraft : TxDraft where
  description := "salario"
  amount := 40
  type := TxType.income
  category := "Salario"
  account := "Conta"
  date := ⟨2024, 0, 10, 0⟩
  recurring := false
  tags := []

/-- The concrete run of the C1 witness: add an expense of 30, delete it
again, then add an income of 40. -/
def opsC1 : List TxOp := [TxOp.add sampleDraft "t1", TxOp.del "t1", TxOp.add incomeDraft "t2"]

/-- The state the C1 witness run ends in: balance 140, one income of 40. -/
def finalC1 : LocalState :=
  ⟨[{ seedAccount with balance := 140 }], [mkTransaction incomeDraft "t2"], [], [], []⟩

/-- Witness for C1 at a concrete run. -/
theorem account_balance_invariant_witness :
    runOps opsC1 seedState = some finalC1 ∧
    balanceOf finalC1 "Conta"
      = balanceOf seedState "Conta" + signedSum finalC1.transactions "Conta" := by
  have hrun : runOps opsC1 seedState = some finalC1 := by
    simp only [opsC1, seedState, seedAccount, sampleDraft, incomeDraft, finalC1, runOps,
      stepOp, addTransaction, deleteTransaction, adjustBalance, mkTransaction,
      txBalanceChange, delBalanceChange, List.find?, List.filter, List.map]
    norm_num
  refine ⟨hrun, ?_⟩
  exact account_balance_invariant seedState finalC1 opsC1 (by decide) rfl (by decide)
    hrun "Conta"

/-! ## CSV import and export (Claims C5 and C8)

The import parser (`src/src/components/ImportStatements.tsx`) and the report
exporter (`src/unnamed/part_005`) manipulate strings character by character;
they are modelled over `List Char` with JS-faithful primitives. -/

/-- JS strings as character lists. -/
abbrev Str := List Char

/-- JS `split` with a single-character class: empty segments are kept and
`"".split` yields `[""]`. -/
def jsSplit (p : Char → Bool) : Str → List Str
  | [] => [[]]
  | c :: rest =>
    if p c then [] :: jsSplit p rest
    else
      match jsSplit p rest with
      | s :: ss => (c :: s) :: ss
      | [] => [[c]]

/-- The JS `trim` whitespace characters relevant here. -/
def isWhite (c : Char) : Bool :=
  c == ' ' || c == '\t' || c == '\r' || c == '\n'

/-- JS `String.prototype.trim`. -/
def jsTrim (s : Str) : Str :=
  ((s.dropWhile isWhite).reverse.dropWhile isWhite).reverse

/-- JS `String.prototype.includes` (substring search). -/
def containsSub (needle hay : Str) : Bool :=
  hay.tails.any (fun t => needle.isPrefixOf t)

/-- The characters `replace(/[^\d.,-]/g, \x27\x27)` keeps. -/
def keepAmountChar (c : Char) : Bool :=
  c.isDigit || c == '.' || c == ',' || c == '-'

/-- JS `replace(String, String)` replaces the first occurrence only. -/
def replaceFirst (a b : Char) : Str → Str
  | [] => []
  | c :: rest => if c == a then b :: rest else c :: replaceFirst a b rest

/-- Numeric value of a digit string. -/
def digitsToNat (ds : Str) : Nat :=
  ds.foldl (fun acc c => acc * 10 + (c.toNat - 48)) 0

/-- JS `parseFloat` restricted to the character set that survives the amount
cleanup (digits, dot, comma, minus; no exponents survive the filter): an
optional leading sign, digits, an optional single decimal point with more
digits; `none` (NaN) when no digit is read before parsing stops. -/
def parseFloatQ (s : Str) : Option ℚ :=
  let signRest : Int × Str :=
    match s with
    | '-' :: r => (-1, r)
    | '+' :: r => (1, r)
    | r => (1, r)
  let intDigits := signRest.2.takeWhile Char.isDigit
  let rest2 := signRest.2.dropWhile Char.isDigit
  let fracDigits :=
    match rest2 with
    | '.' :: r2 => r2.takeWhile Char.isDigit
    | _ => []
  if intDigits.isEmpty && fracDigits.isEmpty then none
  else
    some (((signRest.1 * (digitsToNat intDigits * 10 ^ fracDigits.length
        + digitsToNat fracDigits) : Int) : ℚ) / ((10 ^ fracDigits.length : Nat) : ℚ))

/-- One row as the import parser produces it, before account binding.  The
source constructs `new Date(dateStr)` from the first column; the raw string
is kept, no claim depending on the conversion. -/
structure ParsedTransaction where
  dateStr : Str
  description : Str
  amount : ℚ
  type : TxType
deriving DecidableEq, Repr

/-- The separator class of the row split, `/[,;]/`. -/
def isSep (c : Char) : Bool := c == ',' || c == ';'

/-- The cleaned amount string of a raw third column:
`parts[2].trim().replace(/[^\d.,-]/g, \x27\x27).replace(\x27,\x27, \x27.\x27)`. -/
def cleanAmount (raw : Str) : Str :=
  replaceFirst ',' '.' ((jsTrim raw).filter keepAmountChar)

/-- The body of one iteration of the `parseCSV` loop
(`ImportStatements.tsx`, lines 29-50); `none` when the row is skipped: fewer
than 3 fields, unparseable amount (NaN), or empty description.  A parsed row
stores the absolute value of the amount and is an expense exactly when the
cleaned amount string contains a minus character. -/
def parseRow (line : Str) : Option ParsedTransaction :=
  if (jsSplit isSep line).length ≥ 3 then
    match parseFloatQ (cleanAmount ((jsSplit isSep line).getD 2 [])) with
    | none => none
    | some v =>
      if (jsTrim ((jsSplit isSep line).getD 1 [])).isEmpty then none
      else
        some ⟨jsTrim ((jsSplit isSep line).getD 0 []),
          jsTrim ((jsSplit isSep line).getD 1 []), |v|,
          if (cleanAmount ((jsSplit isSep line).getD 2 [])).any (fun c => c == '-')
          then TxType.expense else TxType.income⟩
  else none

/-- `parseCSV` (`ImportStatements.tsx`, lines 22-53): split into lines, drop
blank lines, skip a leading header containing `data` case-insensitively,
then parse every remaining row independently.  `none` models the TypeError
the source throws reading `lines[0]` of an all-blank input (caught by the
caller). -/
def parseCSV (content : Str) : Option (List ParsedTransaction) :=
  match (jsSplit (fun c => c == '\n') content).filter (fun l => !(jsTrim l).isEmpty) with
  | [] => none
  | l0 :: rest =>
    some (((l0 :: rest).drop
      (if containsSub ("data".toList) (l0.map Char.toLower) then 1 else 0)).filterMap parseRow)

/-- The summary `handleFileUpload` reports (`ImportStatements.tsx`, lines
75-97): each parsed row triggers a fire-and-forget `addTransaction(...)`
call — `addTransaction` is async and catches internally, so the call never
throws synchronously — hence `success` counts every parsed row and `failed`
stays 0. -/
def importSummary (content : Str) : Option (Nat × Nat) :=
  (parseCSV content).map (fun ps => (ps.length, 0))

/-- Decimal digit characters. -/
def digitChar (n : Nat) : Char :=
  match n with
  | 0 => '0'
  | 1 => '1'
  | 2 => '2'
  | 3 => '3'
  | 4 => '4'
  | 5 => '5'
  | 6 => '6'
  | 7 => '7'
  | 8 => '8'
  | 9 => '9'
  | _ => '*'

/-- Decimal rendering of a natural number (fuel-based so that it reduces). -/
def natDigitsAux : Nat → Nat → Str
  | 0, _ => []
  | fuel + 1, n =>
    if n < 10 then [digitChar n]
    else natDigitsAux fuel (n / 10) ++ [digitChar (n % 10)]

def natDigits (n : Nat) : Str := natDigitsAux (n + 1) n

/-- Two-digit zero padding, as in `dd`/`MM` formatting. -/
def pad2 (n : Nat) : Str :=
  if n < 10 then '0' :: natDigits n else natDigits n

/-- `format(t.date, \x27dd/MM/yyyy\x27)`: the `Data` column of the export. -/
def formatDDMMYYYY (d : DateTime) : Str :=
  pad2 d.day ++ '/' :: pad2 (d.month + 1) ++ '/' :: natDigits d.year.toNat

/-- `amount.toFixed(2)`: the `Valor` column — the stored magnitude rounded
to cents and rendered with two decimals (integer arithmetic on the reduced
numerator and denominator; the export writes no sign for expenses, the sign
being implied by the `Tipo` column instead). -/
def toFixed2 (q : ℚ) : Str :=
  let cents : Int := (2 * q.num * 100 + q.den) / (2 * (q.den : Int))
  let sgn : Str := if cents < 0 then ['-'] else []
  sgn ++ natDigits (cents.natAbs / 100) ++ '.' :: pad2 (cents.natAbs % 100)

/-- Wrap a cell in quotes when it contains a comma (`exportToCSV`,
`part_005` lines 233-239). -/
def quoteCell (v : Str) : Str :=
  if v.any (fun c => c == ',') then '"' :: v ++ ['"'] else v

/-- Join pieces with a separator character (`Array.prototype.join`). -/
def joinSep (sep : Char) : List Str → Str
  | [] => []
  | [x] => x
  | x :: xs => x ++ sep :: joinSep sep xs

/-- One transaction row of `generateTransactionsReport` (`part_005`, lines
250-266), in column order: Data, Descricao, Tipo, Categoria, Conta, Valor,
Recorrente.  The amount is the sixth column; the third is the type label. -/
def transactionCells (t : Transaction) : List Str :=
  [formatDDMMYYYY t.date,
   t.description.toList,
   (if t.type == TxType.income then "Receita" else "Despesa").toList,
   t.category.toList,
   t.account.toList,
   toFixed2 t.amount,
   (if t.recurring then "Sim" else "Não").toList]

/-- The header line of the transactions report: `Object.keys(data[0])`
joined with commas. -/
def exportHeader : Str :=
  "Data,Descrição,Tipo,Categoria,Conta,Valor,Recorrente".toList

/-- One exported CSV line: the quoted cells joined with commas. -/
def exportRow (t : Transaction) : Str :=
  joinSep ',' ((transactionCells t).map quoteCell)

/-- `exportToCSV` applied to the transactions report (`part_005`, lines
220-243): the header line followed by one line per transaction, joined with
newlines, cells quoted when they contain a comma. -/
def exportTransactionsCSV (ts : List Transaction) : Str :=
  joinSep '\n' (exportHeader :: ts.map exportRow)

/-- The file content a re-import would read: the blob is created with a
UTF-8 byte-order mark prepended (`part_005`, line 245). -/
def exportedFile (ts : List Transaction) : Str :=
  '\uFEFF' :: exportTransactionsCSV ts

/-- Counterexample for C5 as stated: exporting a one-transaction report and
re-importing it through the parser yields no transactions at all — the
parser reads the third CSV column as the amount, but the export writes the
type label (`Receita`/`Despesa`) there, so the amount parse is NaN and every
row is skipped.  The claimed (date, description, signed amount) tuple of
`sampleExpense` is not reproduced. -/
theorem export_import_roundtrip_counterexample :
    parseCSV (exportedFile [sampleExpense]) = some [] := by decide

/-! ## Claim C8: per-row error handling of the import parser -/

/-- Claim C8: a row is skipped (`none`) exactly when it has fewer than 3
fields, an unparseable amount, or an empty description — each row decided
independently, so a malformed row anywhere in the batch drops out without
affecting the others; a parsed row is an expense exactly when its cleaned
amount string contains a minus character, and stores the absolute value of
the parsed amount; the reported import summary is the pair of succeeded and
failed counts over the batch (`failed` can only count synchronous throws of
the fire-and-forget `addTransaction` call, which never happen). -/
theorem parseCSV_row_classification (line bad : Str) (pre post : List Str)
    (content : Str) :
    (parseRow line = none ↔
      (jsSplit isSep line).length < 3 ∨
      parseFloatQ (cleanAmount ((jsSplit isSep line).getD 2 [])) = none ∨
      (jsTrim ((jsSplit isSep line).getD 1 [])).isEmpty = true) ∧
    (∀ pt, parseRow line = some pt →
      (pt.type = TxType.expense ↔
        (cleanAmount ((jsSplit isSep line).getD 2 [])).any (fun c => c == '-') = true) ∧
      (∃ v, parseFloatQ (cleanAmount ((jsSplit isSep line).getD 2 [])) = some v ∧
        pt.amount = |v| ∧ pt.description = jsTrim ((jsSplit isSep line).getD 1 []))) ∧
    (parseRow bad = none →
      (pre ++ bad :: post).filterMap parseRow = (pre ++ post).filterMap parseRow) ∧
    (∀ ps, parseCSV content = some ps → importSummary content = some (ps.length, 0)) := by
  refine ⟨?_, ?_, ?_, ?_⟩
  · unfold parseRow
    by_cases hlen : (jsSplit isSep line).length ≥ 3
    · rw [if_pos hlen]
      have hlen2 : ¬ (jsSplit isSep line).length < 3 := by omega
      cases hp : parseFloatQ (cleanAmount ((jsSplit isSep line).getD 2 [])) with
      | none => simp [hlen2]
      | some v =>
        by_cases hd : (jsTrim ((jsSplit isSep line).getD 1 [])).isEmpty
        · simp [hlen2, hd]
        · simp [hlen2, hd]
    · rw [if_neg hlen]
      have hlen2 : (jsSplit isSep line).length < 3 := by omega
      simp [hlen2]
  · intro pt hpt
    unfold parseRow at hpt
    split at hpt
    · split at hpt
      · exact absurd hpt (by simp)
      · next v hp =>
        split at hpt
        · exact absurd hpt (by simp)
        · next hd =>
          have hpt2 := (Option.some_injective _ hpt).symm
          subst hpt2
          refine ⟨?_, v, hp, rfl, rfl⟩
          cases hm : (cleanAmount ((jsSplit isSep line).getD 2 [])).any
              (fun c => c == '-') <;> simp [hm]
    · exact absurd hpt (by simp)
  · intro hbad
    simp [List.filterMap_append, List.filterMap_cons, hbad]
  · intro ps hps
    simp [importSummary, hps]

/-- Witness for C8 at concrete inputs: a malformed middle row is skipped
without aborting the batch, and the summary over a batch with one header and
one malformed row is (0, 0). -/
theorem parseCSV_row_classification_witness :
    (["2024-01-15,Mercado,-150".toList] ++ ("abc".toList) :: []).filterMap parseRow
      = (["2024-01-15,Mercado,-150".toList] ++ ([] : List Str)).filterMap parseRow ∧
    importSummary ("Data,Descricao,Valor\nabc".toList) = some (0, 0) := by
  constructor
  · exact (parseCSV_row_classification [] ("abc".toList)
      ["2024-01-15,Mercado,-150".toList] [] []).2.2.1 (by decide)
  · have h : parseCSV ("Data,Descricao,Valor\nabc".toList) = some [] := by decide
    exact (parseCSV_row_classification [] [] [] []
      ("Data,Descricao,Valor\nabc".toList)).2.2.2 [] h

/-! ## Claim C5: export/import round trip -/

/-- Characters that disturb neither the line split nor the field split of
the import parser. -/
def plainChar (c : Char) : Bool := !(c == ',' || c == ';' || c == '\n')

theorem all_plain_imp (cell : Str) (h : cell.all plainChar = true) :
    (∀ c ∈ cell, isSep c = false) ∧ (∀ c ∈ cell, (c == '\n') = false) := by
  rw [List.all_eq_true] at h
  constructor
  · intro c hc
    have hh := h c hc
    simp [plainChar] at hh
    simp [isSep, hh.1.1, hh.1.2]
  · intro c hc
    have hh := h c hc
    simp [plainChar] at hh
    simp [hh.2]

theorem digitChar_plain (n : Nat) : plainChar (digitChar n) = true := by
  unfold digitChar
  split <;> decide

theorem natDigitsAux_plain (fuel : Nat) :
    ∀ n, (natDigitsAux fuel n).all plainChar = true := by
  induction fuel with
  | zero => intro n; rfl
  | succ fuel ih =>
    intro n
    show ((if n < 10 then [digitChar n]
      else natDigitsAux fuel (n / 10) ++ [digitChar (n % 10)]).all plainChar) = true
    by_cases h : n < 10
    · rw [if_pos h]
      simp [digitChar_plain]
    · rw [if_neg h]
      simp [List.all_append, ih, digitChar_plain]

theorem natDigits_plain (n : Nat) : (natDigits n).all plainChar = true :=
  natDigitsAux_plain _ _

theorem pad2_plain (n : Nat) : (pad2 n).all plainChar = true := by
  unfold pad2
  split
  · simp [natDigits_plain, (by decide : plainChar '0' = true)]
  · exact natDigits_plain n

theorem formatDDMMYYYY_plain (d : DateTime) :
    (formatDDMMYYYY d).all plainChar = true := by
  simp [formatDDMMYYYY, List.all_append, pad2_plain, natDigits_plain,
    (by decide : plainChar '/' = true)]

theorem toFixed2_plain (q : ℚ) : (toFixed2 q).all plainChar = true := by
  simp only [toFixed2]
  split <;>
    simp [List.all_append, natDigits_plain, pad2_plain,
      (by decide : plainChar '-' = true), (by decide : plainChar '.' = true)]

theorem quoteCell_plain_eq (v : Str) (h : v.all plainChar = true) :
    quoteCell v = v := by
  have hno : v.any (fun c => c == ',') = false := by
    cases hm : v.any (fun c => c == ',') with
    | false => rfl
    | true =>
      rcases List.any_eq_true.mp hm with ⟨c, hc, hcc⟩
      have hsep := (all_plain_imp v h).1 c hc
      have hc2 : c = ',' := by simpa using hcc
      rw [hc2] at hsep
      simp [isSep] at hsep
  simp [quoteCell, hno]

theorem map_quoteCell_eq (l : List Str) (h : ∀ cell ∈ l, cell.all plainChar = true) :
    l.map quoteCell = l := by
  induction l with
  | nil => rfl
  | cons x xs ih =>
    simp [quoteCell_plain_eq x (h x (by simp)), ih (fun y hy => h y (by simp [hy]))]

theorem jsSplit_ne_nil (p : Char → Bool) (s : Str) : jsSplit p s ≠ [] := by
  induction s with
  | nil => simp [jsSplit]
  | cons c rest ih =>
    unfold jsSplit
    by_cases h : p c
    · simp [h]
    · simp only [h, Bool.false_eq_true, if_false]
      cases hm : jsSplit p rest with
      | nil => simp
      | cons s ss => simp

theorem jsSplit_append (p : Char → Bool) (a rest : Str)
    (ha : ∀ c ∈ a, p c = false) :
    ∃ s ss, jsSplit p rest = s :: ss ∧ jsSplit p (a ++ rest) = (a ++ s) :: ss := by
  induction a with
  | nil =>
    cases hm : jsSplit p rest with
    | nil => exact absurd hm (jsSplit_ne_nil p rest)
    | cons s ss => exact ⟨s, ss, rfl, by simp [hm]⟩
  | cons c a ih =>
    obtain ⟨s, ss, h1, h2⟩ := ih (fun x hx => ha x (List.mem_cons_of_mem _ hx))
    refine ⟨s, ss, h1, ?_⟩
    have hc : p c = false := ha c (List.mem_cons_self _ _)
    simp [jsSplit, hc, h2]

theorem jsSplit_joinSep (p : Char → Bool) (sep : Char) (hsep : p sep = true) :
    ∀ cells : List Str, cells ≠ [] →
      (∀ cell ∈ cells, ∀ c ∈ cell, p c = false) →
      jsSplit p (joinSep sep cells) = cells := by
  intro cells
  induction cells with
  | nil => intro hne _; exact absurd rfl hne
  | cons x xs ih =>
    intro _ hall
    cases xs with
    | nil =>
      obtain ⟨s, ss, h1, h2⟩ := jsSplit_append p x [] (hall x (by simp))
      have hnil : jsSplit p ([] : Str) = [[]] := rfl
      rw [hnil] at h1
      injection h1 with hs hss
      subst hs
      subst hss
      have h2x : jsSplit p x = [x] := by
        have hx : x ++ ([] : Str) = x := by simp
        rw [hx] at h2
        simpa using h2
      rw [show joinSep sep [x] = x from rfl, h2x]
    | cons y ys =>
      have hrest : jsSplit p (sep :: joinSep sep (y :: ys))
          = [] :: jsSplit p (joinSep sep (y :: ys)) := by
        simp [jsSplit, hsep]
      obtain ⟨s, ss, h1, h2⟩ :=
        jsSplit_append p x (sep :: joinSep sep (y :: ys)) (hall x (by simp))
      rw [hrest] at h1
      injection h1 with hs hss
      subst hs
      subst hss
      rw [show joinSep sep (x :: y :: ys) = x ++ sep :: joinSep sep (y :: ys) from rfl]
      rw [h2]
      rw [ih (by simp) (fun cell hcell => hall cell (List.mem_cons_of_mem _ hcell))]
      simp

theorem joinSep_chars (q : Char → Bool) (sep : Char) (hsep : q sep = true) :
    ∀ cells : List Str, (∀ cell ∈ cells, ∀ c ∈ cell, q c = true) →
      ∀ c ∈ joinSep sep cells, q c = true := by
  intro cells
  induction cells with
  | nil =>
    intro _ c hc
    simp [joinSep] at hc
  | cons x xs ih =>
    intro hall c hc
    cases xs with
    | nil => exact hall x (by simp) c (by simpa [joinSep] using hc)
    | cons y ys =>
      rw [show joinSep sep (x :: y :: ys) = x ++ sep :: joinSep sep (y :: ys) from rfl] at hc
      rcases List.mem_append.mp hc with h | h
      · exact hall x (by simp) c h
      · rcases List.mem_cons.mp h with h | h
        · rw [h]; exact hsep
        · exact ih (fun cell hcell => hall cell (List.mem_cons_of_mem _ hcell)) c h

theorem sep_mem_joinSep (sep : Char) (x y : Str) (ys : List Str) :
    sep ∈ joinSep sep (x :: y :: ys) := by
  rw [show joinSep sep (x :: y :: ys) = x ++ sep :: joinSep sep (y :: ys) from rfl]
  exact List.mem_append.mpr (Or.inr (List.mem_cons_self _ _))

theorem mem_dropWhile_of_not (p : Char → Bool) (s : Str) (c : Char)
    (hc : c ∈ s) (hpc : p c = false) : c ∈ s.dropWhile p := by
  have hsplit := List.takeWhile_append_dropWhile (p := p) (l := s)
  rcases List.mem_append.mp (hsplit ▸ hc) with h | h
  · have := List.mem_takeWhile_imp h
    rw [hpc] at this
    exact absurd this (by simp)
  · exact h

theorem jsTrim_ne_nil (s : Str) (c : Char) (hc : c ∈ s) (hw : isWhite c = false) :
    (jsTrim s).isEmpty = false := by
  unfold jsTrim
  have h1 : c ∈ s.dropWhile isWhite := mem_dropWhile_of_not _ _ _ hc hw
  have h2 : c ∈ (s.dropWhile isWhite).reverse := List.mem_reverse.mpr h1
  have h3 : c ∈ (s.dropWhile isWhite).reverse.dropWhile isWhite :=
    mem_dropWhile_of_not _ _ _ h2 hw
  have h4 : c ∈ ((s.dropWhile isWhite).reverse.dropWhile isWhite).reverse :=
    List.mem_reverse.mpr h3
  cases hm : ((s.dropWhile isWhite).reverse.dropWhile isWhite).reverse with
  | nil => exact absurd (hm ▸ h4) (List.not_mem_nil c)
  | cons a l => rfl

theorem transactionCells_plain (t : Transaction)
    (hd : t.description.toList.all plainChar = true)
    (hc : t.category.toList.all plainChar = true)
    (ha : t.account.toList.all plainChar = true) :
    ∀ cell ∈ transactionCells t, cell.all plainChar = true := by
  intro cell hcell
  simp only [transactionCells, List.mem_cons, List.not_mem_nil, or_false] at hcell
  rcases hcell with h | h | h | h | h | h | h <;> subst h
  · exact formatDDMMYYYY_plain t.date
  · exact hd
  · cases ht : t.type == TxType.income <;> simp [ht] <;> decide
  · exact hc
  · exact ha
  · exact toFixed2_plain t.amount
  · cases hr : t.recurring <;> simp [hr] <;> decide

/-- An exported data row never survives the import parser: its third column
is the type label, whose cleanup leaves no digits, so the amount parse is
NaN and the row is skipped. -/
theorem parseRow_exportRow (t : Transaction)
    (hd : t.description.toList.all plainChar = true)
    (hc : t.category.toList.all plainChar = true)
    (ha : t.account.toList.all plainChar = true) :
    parseRow (exportRow t) = none := by
  have hcells := transactionCells_plain t hd hc ha
  unfold exportRow
  rw [map_quoteCell_eq (transactionCells t) hcells]
  have hsplit : jsSplit isSep (joinSep ',' (transactionCells t)) = transactionCells t := by
    apply jsSplit_joinSep isSep ',' (by decide) _ (by simp [transactionCells])
    intro cell hcell c hcc
    exact (all_plain_imp cell (hcells cell hcell)).1 c hcc
  unfold parseRow
  rw [hsplit]
  have hlen : (transactionCells t).length ≥ 3 := by simp [transactionCells]
  rw [if_pos hlen]
  have hgd : (transactionCells t).getD 2 []
      = (if t.type == TxType.income then "Receita" else "Despesa").toList := by
    simp [transactionCells, List.getD]
  rw [hgd]
  have hnone1 : parseFloatQ (cleanAmount ['D', 'e', 's', 'p', 'e', 's', 'a']) = none := by
    decide
  have hnone2 : parseFloatQ (cleanAmount ['R', 'e', 'c', 'e', 'i', 't', 'a']) = none := by
    decide
  cases ht : t.type == TxType.income <;> simp [ht, hnone1, hnone2]

/-- Claim C5 (amended): the export/import round trip reproduces nothing.
For every transactions report whose text fields contain no separator or
newline characters (so that each record occupies one well-formed CSV line),
re-importing the exported file through the import parser yields the empty
list of transactions: no (date, description, signed amount) tuple is
reproduced, because the parser reads the amount from the third column where
the export wrote the type label, and additionally the export drops the sign
of expense amounts. -/
theorem export_reimport_empty (ts : List Transaction)
    (h : ∀ t ∈ ts, t.description.toList.all plainChar = true ∧
        t.category.toList.all plainChar = true ∧
        t.account.toList.all plainChar = true) :
    parseCSV (exportedFile ts) = some [] := by
  have hcellsOf : ∀ t ∈ ts, ∀ cell ∈ transactionCells t, cell.all plainChar = true :=
    fun t ht => transactionCells_plain t (h t ht).1 (h t ht).2.1 (h t ht).2.2
  have hrowNoNl : ∀ t ∈ ts, ∀ c ∈ exportRow t, (c == '\n') = false := by
    intro t ht c hcc
    unfold exportRow at hcc
    rw [map_quoteCell_eq _ (hcellsOf t ht)] at hcc
    have := joinSep_chars (fun c => !(c == '\n')) ',' (by decide) (transactionCells t)
      (fun cell hcell c2 hc2 => by
        have hx := (all_plain_imp cell (hcellsOf t ht cell hcell)).2 c2 hc2
        simp [hx]) c hcc
    simpa using this
  have hsplitlines : jsSplit (fun c => c == '\n')
      (joinSep '\n' (exportHeader :: ts.map exportRow))
      = exportHeader :: ts.map exportRow := by
    apply jsSplit_joinSep _ '\n' (by decide) _ (by simp)
    intro cell hcell c hcc
    rcases List.mem_cons.mp hcell with hh | hh
    · subst hh
      have hall : exportHeader.all (fun c => !(c == '\n')) = true := by decide
      have := List.all_eq_true.mp hall c hcc
      simpa using this
    · rcases List.mem_map.mp hh with ⟨t, ht, he⟩
      subst he
      exact hrowNoNl t ht c hcc
  have hlines : jsSplit (fun c => c == '\n') (exportedFile ts)
      = ('\uFEFF' :: exportHeader) :: ts.map exportRow := by
    show jsSplit (fun c => c == '\n')
      ('\uFEFF' :: joinSep '\n' (exportHeader :: ts.map exportRow)) = _
    simp [jsSplit, hsplitlines]
  have hfilter : ((('\uFEFF' :: exportHeader) :: ts.map exportRow).filter
      (fun l => !(jsTrim l).isEmpty)) = ('\uFEFF' :: exportHeader) :: ts.map exportRow := by
    apply List.filter_eq_self.mpr
    intro l hl
    rcases List.mem_cons.mp hl with hh | hh
    · subst hh
      decide
    · rcases List.mem_map.mp hh with ⟨t, ht, he⟩
      subst he
      have hmem : ',' ∈ exportRow t := by
        show ',' ∈ joinSep ',' ((transactionCells t).map quoteCell)
        simp only [transactionCells, List.map_cons]
        exact sep_mem_joinSep ',' _ _ _
      have := jsTrim_ne_nil _ ',' hmem (by decide)
      simp [this]
  unfold parseCSV
  rw [hlines, hfilter]
  have hhead : containsSub ("data".toList)
      (('\uFEFF' :: exportHeader).map Char.toLower) = true := by decide
  simp only [hhead, if_true, List.drop_one, List.tail_cons]
  congr 1
  rw [List.filterMap_eq_nil]
  intro row hrow
  rcases List.mem_map.mp hrow with ⟨t, ht, he⟩
  subst he
  exact parseRow_exportRow t (h t ht).1 (h t ht).2.1 (h t ht).2.2

/-- Witness for C5 (amended) at a concrete input: a one-income report whose
text fields are plain re-imports as the empty list. -/
theorem export_reimport_empty_witness :
    sampleIncome.description.toList.all plainChar = true ∧
    parseCSV (exportedFile [sampleIncome]) = some [] := by
  refine ⟨by decide, ?_⟩
  apply export_reimport_empty
  intro t ht
  have heq : t = sampleIncome := by simpa using ht
  subst heq
  exact ⟨by decide, by decide, by decide⟩

end Mobills
